import Mathlib

namespace TypeLens

/-- The closed tag of a `TypeNode` (shared/src/types/typeNode.ts, `TypeKind`).
`class`, `interface` and `enum` are Lean keywords; the constructors carry a `K` suffix. -/
inductive TypeKind where
  | primitive | object | array | union | intersection | literal
  | function | generic | tuple | conditional | template | indexed
  | mapped | classK | interfaceK | enumK | unknown
deriving DecidableEq, Repr

/-- The string each `TypeKind` denotes in the TypeScript source. -/
def kindToString : TypeKind → String
  | .primitive => "primitive"
  | .object => "object"
  | .array => "array"
  | .union => "union"
  | .intersection => "intersection"
  | .literal => "literal"
  | .function => "function"
  | .generic => "generic"
  | .tuple => "tuple"
  | .conditional => "conditional"
  | .template => "template"
  | .indexed => "indexed"
  | .mapped => "mapped"
  | .classK => "class"
  | .interfaceK => "interface"
  | .enumK => "enum"
  | .unknown => "unknown"

/-- A literal value carried by `TypeNode.value` (string | number | boolean).
JS numbers are doubles; every value this repository stores is an integer, modelled as `Int`. -/
inductive LitValue where
  | str (v : String)
  | num (v : Int)
  | bool (v : Bool)
deriving DecidableEq, Repr

/-- JS `String(v)` on a literal value. -/
def valueToString : LitValue → String
  | .str v => v
  | .num v => toString v
  | .bool v => if v then "true" else "false"

/-- One node of a serialized type tree (shared/src/types/typeNode.ts, `TypeNode`).
An absent `children` field behaves exactly like `[]` in the differ (`children || []`)
and the serializer never distinguishes the two, so children are a plain list; the
`optional`/`readonly` flags are likewise modelled by their falsy default. -/
inductive TypeNode where
  | mk (kind : TypeKind) (name : Option String) (value : Option LitValue)
       (children : List TypeNode) («optional» : Bool) («readonly» : Bool)

def TypeNode.kind : TypeNode → TypeKind
  | .mk k _ _ _ _ _ => k

def TypeNode.name : TypeNode → Option String
  | .mk _ n _ _ _ _ => n

def TypeNode.value : TypeNode → Option LitValue
  | .mk _ _ v _ _ _ => v

def TypeNode.children : TypeNode → List TypeNode
  | .mk _ _ _ cs _ _ => cs

def TypeNode.optionalFlag : TypeNode → Bool
  | .mk _ _ _ _ o _ => o

@[simp] theorem TypeNode.kind_mk (k n v cs o r) : (TypeNode.mk k n v cs o r).kind = k := rfl
@[simp] theorem TypeNode.name_mk (k n v cs o r) : (TypeNode.mk k n v cs o r).name = n := rfl
@[simp] theorem TypeNode.value_mk (k n v cs o r) : (TypeNode.mk k n v cs o r).value = v := rfl
@[simp] theorem TypeNode.children_mk (k n v cs o r) : (TypeNode.mk k n v cs o r).children = cs := rfl
@[simp] theorem TypeNode.optionalFlag_mk (k n v cs o r) : (TypeNode.mk k n v cs o r).optionalFlag = o := rfl

theorem TypeNode.sizeOf_children_lt (n : TypeNode) : sizeOf n.children < sizeOf n := by
  cases n with
  | mk k nm v cs o r => simp [TypeNode.children]; omega

mutual

/-- Structural equality test on type trees (the automatic derivation does not
handle the nested `List`). -/
def tnBEq : TypeNode → TypeNode → Bool
  | .mk k1 n1 v1 cs1 o1 r1, .mk k2 n2 v2 cs2 o2 r2 =>
      k1 == k2 && n1 == n2 && v1 == v2 && tnBEqList cs1 cs2 && o1 == o2 && r1 == r2

def tnBEqList : List TypeNode → List TypeNode → Bool
  | [], [] => true
  | c1 :: cs1, c2 :: cs2 => tnBEq c1 c2 && tnBEqList cs1 cs2
  | _, _ => false

end

mutual

theorem tnBEq_iff : ∀ (a b : TypeNode), tnBEq a b = true ↔ a = b
  | .mk k1 n1 v1 cs1 o1 r1, .mk k2 n2 v2 cs2 o2 r2 => by
      simp [tnBEq, tnBEqList_iff cs1 cs2, TypeNode.mk.injEq, and_assoc]

theorem tnBEqList_iff : ∀ (as bs : List TypeNode), tnBEqList as bs = true ↔ as = bs
  | [], [] => by simp [tnBEqList]
  | [], _ :: _ => by simp [tnBEqList]
  | _ :: _, [] => by simp [tnBEqList]
  | c1 :: cs1, c2 :: cs2 => by
      simp [tnBEqList, tnBEq_iff c1 c2, tnBEqList_iff cs1 cs2]

end

instance : DecidableEq TypeNode :=
  fun a b => decidable_of_iff (tnBEq a b = true) (tnBEq_iff a b)

/-- A path segment (shared/src/types/diff.ts declares `path: string[]`, but the
runtime value pushed for an object property is `c.name!`, which is `undefined`
when the child has no name; a segment is therefore an `Option String`). -/
abbrev Seg := Option String

/-- shared/src/types/diff.ts `DiffKind`. -/
inductive DiffKind where
  | Missing | Extra | TypeMismatch | ValueMismatch
  | Modified | Added | Removed | Identical
deriving DecidableEq, Repr

/-- shared/src/types/diff.ts `TypeDiff`; the optional `changes` field is never
written by the differ and is omitted. -/
structure TypeDiff where
  path : List Seg
  kind : DiffKind
  expected : Option String := none
  actual : Option String := none
  message : String
deriving DecidableEq, Repr

/-- shared/src/types/diff.ts `DiffSummary`. -/
structure DiffSummary where
  missing : Nat
  extra : Nat
  mismatch : Nat
deriving DecidableEq, Repr

/-- shared/src/types/diff.ts `DiffResult`. -/
structure DiffResult where
  diffs : List TypeDiff
  hasChanges : Bool
  summary : DiffSummary
deriving DecidableEq, Repr

/-- JS template-literal rendering of a possibly-undefined string. -/
def optName (o : Option String) : String :=
  match o with
  | some s => s
  | none => "undefined"

/-- JS `String(value)` on a possibly-undefined literal value. -/
def optValue (o : Option LitValue) : String :=
  match o with
  | some v => valueToString v
  | none => "undefined"

/-- differ `nodeToString` fallback once the truthiness test on `name` fails. -/
def nodeToStringNoName (n : TypeNode) : String :=
  match n.value with
  | some v => valueToString v
  | none => kindToString n.kind

/-- core/src/differ/typeDiffer.ts `nodeToString` (lines 214-218).
`if (node.name) return node.name` is a truthiness test, so an empty-string name
falls through to the `value`/`kind` fallbacks; `node.value !== undefined` keeps
every present value, including `false` and `0`. -/
def nodeToString (n : TypeNode) : String :=
  match n.name with
  | some nm => if nm = "" then nodeToStringNoName n else nm
  | none => nodeToStringNoName n

/-- The association list modelling the JS `Map` built by `compareObjects`:
`new Map(children.map(c => [c.name!, c]))`. -/
abbrev PropMap := List (Seg × TypeNode)

/-- JS `Map.set` semantics for map construction from a pair list: a repeated key
keeps its original position and takes the later value. -/
def mapSet (m : PropMap) (k : Seg) (v : TypeNode) : PropMap :=
  if m.any (fun p => p.1 == k) then m.map (fun p => if p.1 == k then (k, v) else p)
  else m ++ [(k, v)]

/-- `new Map((node.children || []).map(c => [c.name!, c]))`. -/
def buildPropMap (cs : List TypeNode) : PropMap :=
  cs.foldl (fun m c => mapSet m c.name c) []

/-- JS `Map.get`. -/
def mapGet (m : PropMap) (k : Seg) : Option TypeNode :=
  (m.find? (fun p => p.1 == k)).map (fun p => p.2)

/-- JS `Map.has`. -/
def mapHas (m : PropMap) (k : Seg) : Bool :=
  (m.find? (fun p => p.1 == k)).isSome

theorem mem_of_mem_mapSet {kv : Seg × TypeNode} {m : PropMap} {k : Seg} {v : TypeNode}
    (h : kv ∈ mapSet m k v) : kv ∈ m ∨ kv = (k, v) := by
  unfold mapSet at h
  split at h
  · rcases List.mem_map.mp h with ⟨p, hp, hkv⟩
    split at hkv
    · exact Or.inr hkv.symm
    · exact Or.inl (hkv ▸ hp)
  · rcases List.mem_append.mp h with h1 | h1
    · exact Or.inl h1
    · simp at h1
      exact Or.inr h1

theorem snd_mem_of_mem_buildPropMap {kv : Seg × TypeNode} {cs : List TypeNode}
    (h : kv ∈ buildPropMap cs) : kv.2 ∈ cs := by
  suffices H : ∀ (cs : List TypeNode) (m : PropMap),
      kv ∈ cs.foldl (fun m c => mapSet m c.name c) m → kv ∈ m ∨ kv.2 ∈ cs by
    rcases H cs [] h with h' | h'
    · simp at h'
    · exact h'
  intro cs
  induction cs with
  | nil => intro m h'; exact Or.inl h'
  | cons c cs ih =>
      intro m h'
      rcases ih (mapSet m c.name c) h' with h'' | h''
      · rcases mem_of_mem_mapSet h'' with h3 | h3
        · exact Or.inl h3
        · subst h3; right; simp
      · right; right; exact h''

/-- Rendering used by `compareArrays` on `actualChildren[i]`; the `none` branch is
unreachable because the loop index stays below `max` of the two lengths. -/
def optNodeToString (o : Option TypeNode) : String :=
  match o with
  | some n => nodeToString n
  | none => "undefined"

/-- core/src/differ/typeDiffer.ts `compareComposites` (lines 189-209): for
union/intersection nodes the source performs only a length check. -/
def compareComposites (expected actual : TypeNode) (path : List Seg) : List TypeDiff :=
  let expectedChildren := expected.children
  let actualChildren := actual.children
  if expectedChildren.length ≠ actualChildren.length then
    [{ path := path, kind := DiffKind.TypeMismatch,
       expected := some (kindToString expected.kind ++ " with " ++
         toString expectedChildren.length ++ " types"),
       actual := some (kindToString actual.kind ++ " with " ++
         toString actualChildren.length ++ " types"),
       message := kindToString expected.kind ++ " length mismatch" }]
  else []

mutual

/-- core/src/differ/typeDiffer.ts `compareNodes` (lines 32-104): kind mismatch
short-circuits; otherwise dispatch on the common kind.  The switch has no arms
for function/conditional/template/indexed/mapped/class/interface/enum, which
therefore produce no diffs. -/
def compareNodes (expected actual : TypeNode) (path : List Seg) : List TypeDiff :=
  if expected.kind ≠ actual.kind then
    [{ path := path, kind := DiffKind.TypeMismatch,
       expected := some (nodeToString expected),
       actual := some (nodeToString actual),
       message := "Type mismatch: expected " ++ kindToString expected.kind ++
         ", got " ++ kindToString actual.kind }]
  else
    match expected.kind with
    | .primitive | .unknown =>
        if expected.name ≠ actual.name then
          [{ path := path, kind := DiffKind.TypeMismatch,
             expected := expected.name, actual := actual.name,
             message := "Type name mismatch: expected " ++ optName expected.name ++
               ", got " ++ optName actual.name }]
        else []
    | .literal =>
        if expected.value ≠ actual.value then
          [{ path := path, kind := DiffKind.ValueMismatch,
             expected := some (optValue expected.value),
             actual := some (optValue actual.value),
             message := "Literal value mismatch: expected " ++ optValue expected.value ++
               ", got " ++ optValue actual.value }]
        else []
    | .object => compareObjects expected actual path
    | .array | .tuple => compareArrays expected actual path
    | .union | .intersection => compareComposites expected actual path
    | .generic =>
        (if expected.name ≠ actual.name then
          [{ path := path, kind := DiffKind.TypeMismatch,
             expected := expected.name, actual := actual.name,
             message := "Generic type mismatch: expected " ++ optName expected.name ++
               ", got " ++ optName actual.name }]
         else []) ++ compareArrays expected actual path
    | _ => []
termination_by (sizeOf expected, 1)

/-- core/src/differ/typeDiffer.ts `compareObjects` (lines 109-146): name-keyed
maps on both sides; expected-side outcomes first (missing unless optional, else
recursion), then actual-only extras. -/
def compareObjects (expected actual : TypeNode) (path : List Seg) : List TypeDiff :=
  let expectedProps := buildPropMap expected.children
  let actualProps := buildPropMap actual.children
  let expectedPart :=
    expectedProps.attach.map (fun ep =>
      let name := ep.1.1
      let expectedProp := ep.1.2
      match mapGet actualProps name with
      | none =>
          if expectedProp.optionalFlag then []
          else
            [{ path := path ++ [name], kind := DiffKind.Missing,
               expected := some (nodeToString expectedProp),
               message := "Missing property: " ++ optName name }]
      | some actualProp => compareNodes expectedProp actualProp (path ++ [name]))
  let extraPart :=
    actualProps.map (fun ap =>
      if mapHas expectedProps ap.1 then ([] : List TypeDiff)
      else
        [{ path := path ++ [ap.1], kind := DiffKind.Extra,
           actual := some (nodeToString ap.2),
           message := "Extra property: " ++ optName ap.1 }])
  expectedPart.flatten ++ extraPart.flatten
termination_by (sizeOf expected, 0)
decreasing_by
  have h2 := snd_mem_of_mem_buildPropMap ep.2
  have h3 := List.sizeOf_lt_of_mem h2
  have h4 := TypeNode.sizeOf_children_lt expected
  exact Prod.Lex.left _ _ (by omega)

/-- core/src/differ/typeDiffer.ts `compareArrays` (lines 151-184): positional
walk up to the longer length; one-sided indices yield Extra/Missing, two-sided
indices recurse. -/
def compareArrays (expected actual : TypeNode) (path : List Seg) : List TypeDiff :=
  let expectedChildren := expected.children
  let actualChildren := actual.children
  let maxLength := max expectedChildren.length actualChildren.length
  ((List.range maxLength).map (fun i =>
    match h1 : expectedChildren[i]? with
    | none =>
        [{ path := path ++ [some ("[" ++ toString i ++ "]")], kind := DiffKind.Extra,
           actual := some (optNodeToString actualChildren[i]?),
           message := "Extra element at index " ++ toString i }]
    | some expectedChild =>
        match actualChildren[i]? with
        | none =>
            [{ path := path ++ [some ("[" ++ toString i ++ "]")], kind := DiffKind.Missing,
               expected := some (nodeToString expectedChild),
               message := "Missing element at index " ++ toString i }]
        | some actualChild =>
            compareNodes expectedChild actualChild
              (path ++ [some ("[" ++ toString i ++ "]")]))).flatten
termination_by (sizeOf expected, 0)
decreasing_by
  have h2 : expectedChild ∈ expected.children := List.getElem?_mem h1
  have h3 := List.sizeOf_lt_of_mem h2
  have h4 := TypeNode.sizeOf_children_lt expected
  exact Prod.Lex.left _ _ (by omega)

end

/-- core/src/differ/typeDiffer.ts `compare` (lines 10-27); `path` defaults to
`[]` at the TypeScript call sites. -/
def compare (expected actual : TypeNode) (path : List Seg) : DiffResult :=
  let diffs := compareNodes expected actual path
  { diffs := diffs,
    hasChanges := decide (diffs.length > 0),
    summary :=
      { missing := (diffs.filter (fun d => d.kind == DiffKind.Missing)).length,
        extra := (diffs.filter (fun d => d.kind == DiffKind.Extra)).length,
        mismatch := (diffs.filter (fun d =>
          d.kind == DiffKind.TypeMismatch || d.kind == DiffKind.ValueMismatch)).length } }

/-- The two passes of `compareObjects`, abstracted over the recursive comparison
used on matched properties.  `compareObjects` itself instantiates `rec` with
`compareNodes` (proved in `compareObjects_eq`). -/
def objPartsWith (rec : TypeNode → TypeNode → List Seg → List TypeDiff)
    (expected actual : TypeNode) (path : List Seg) : List TypeDiff :=
  ((buildPropMap expected.children).map (fun ep =>
    match mapGet (buildPropMap actual.children) ep.1 with
    | none =>
        if ep.2.optionalFlag then []
        else
          [{ path := path ++ [ep.1], kind := DiffKind.Missing,
             expected := some (nodeToString ep.2),
             message := "Missing property: " ++ optName ep.1 }]
    | some ap => rec ep.2 ap (path ++ [ep.1]))).flatten
  ++ ((buildPropMap actual.children).map (fun ap =>
    if mapHas (buildPropMap expected.children) ap.1 then ([] : List TypeDiff)
    else
      [{ path := path ++ [ap.1], kind := DiffKind.Extra,
         actual := some (nodeToString ap.2),
         message := "Extra property: " ++ optName ap.1 }])).flatten

/-- The positional pass of `compareArrays`, abstracted over the recursive
comparison used on index-aligned children. -/
def arrayPartsWith (rec : TypeNode → TypeNode → List Seg → List TypeDiff)
    (expected actual : TypeNode) (path : List Seg) : List TypeDiff :=
  ((List.range (max expected.children.length actual.children.length)).map (fun i =>
    match expected.children[i]?, actual.children[i]? with
    | none, _ =>
        [{ path := path ++ [some ("[" ++ toString i ++ "]")], kind := DiffKind.Extra,
           actual := some (optNodeToString actual.children[i]?),
           message := "Extra element at index " ++ toString i }]
    | some ec, none =>
        [{ path := path ++ [some ("[" ++ toString i ++ "]")], kind := DiffKind.Missing,
           expected := some (nodeToString ec),
           message := "Missing element at index " ++ toString i }]
    | some ec, some ac =>
        rec ec ac (path ++ [some ("[" ++ toString i ++ "]")]))).flatten

theorem compareObjects_eq (e a : TypeNode) (p : List Seg) :
    compareObjects e a p = objPartsWith compareNodes e a p := by
  rw [compareObjects, objPartsWith]
  congr 1
  exact congrArg List.flatten (List.attach_map_coe (buildPropMap e.children)
    (fun x => (match mapGet (buildPropMap a.children) x.1 with
    | none =>
        if x.2.optionalFlag then []
        else
          [{ path := p ++ [x.1], kind := DiffKind.Missing,
             expected := some (nodeToString x.2),
             message := "Missing property: " ++ optName x.1 }]
    | some ap => compareNodes x.2 ap (p ++ [x.1]) : List TypeDiff)))

theorem compareArrays_eq (e a : TypeNode) (p : List Seg) :
    compareArrays e a p = arrayPartsWith compareNodes e a p := by
  rw [compareArrays, arrayPartsWith]
  congr 1
  apply List.map_congr_left
  intro i _
  rcases h1 : e.children[i]? with _ | ec
  · simp [h1]
  · rcases h2 : a.children[i]? with _ | ac <;> simp [h1, h2]

theorem objPartsWith_congr {f g : TypeNode → TypeNode → List Seg → List TypeDiff}
    (e a : TypeNode) (p : List Seg)
    (h : ∀ x ∈ e.children, ∀ y q, f x y q = g x y q) :
    objPartsWith f e a p = objPartsWith g e a p := by
  rw [objPartsWith, objPartsWith]
  congr 1
  apply congrArg List.flatten
  apply List.map_congr_left
  intro ep hep
  rcases hg : mapGet (buildPropMap a.children) ep.1 with _ | ap
  · simp [hg]
  · simpa [hg] using h ep.2 (snd_mem_of_mem_buildPropMap hep) ap (p ++ [ep.1])

theorem arrayPartsWith_congr {f g : TypeNode → TypeNode → List Seg → List TypeDiff}
    (e a : TypeNode) (p : List Seg)
    (h : ∀ x ∈ e.children, ∀ y q, f x y q = g x y q) :
    arrayPartsWith f e a p = arrayPartsWith g e a p := by
  rw [arrayPartsWith, arrayPartsWith]
  apply congrArg List.flatten
  apply List.map_congr_left
  intro i _
  rcases h1 : e.children[i]? with _ | ec
  · simp [h1]
  · rcases h2 : a.children[i]? with _ | ac
    · simp [h1, h2]
    · simpa [h1, h2] using h ec (List.getElem?_mem h1) ac (p ++ [some ("[" ++ toString i ++ "]")])

/-- Fuel-indexed executable twin of `compareNodes`; `compareNodesFx_eq` proves it
agrees with `compareNodes` whenever the fuel exceeds the size of the expected
tree.  Its sole purpose is to let concrete runs of the differ be checked by
kernel reduction. -/
def compareNodesFx : Nat → TypeNode → TypeNode → List Seg → List TypeDiff
  | 0, _, _, _ => []
  | fuel + 1, expected, actual, path =>
    if expected.kind ≠ actual.kind then
      [{ path := path, kind := DiffKind.TypeMismatch,
         expected := some (nodeToString expected),
         actual := some (nodeToString actual),
         message := "Type mismatch: expected " ++ kindToString expected.kind ++
           ", got " ++ kindToString actual.kind }]
    else
      match expected.kind with
      | .primitive | .unknown =>
          if expected.name ≠ actual.name then
            [{ path := path, kind := DiffKind.TypeMismatch,
               expected := expected.name, actual := actual.name,
               message := "Type name mismatch: expected " ++ optName expected.name ++
                 ", got " ++ optName actual.name }]
          else []
      | .literal =>
          if expected.value ≠ actual.value then
            [{ path := path, kind := DiffKind.ValueMismatch,
               expected := some (optValue expected.value),
               actual := some (optValue actual.value),
               message := "Literal value mismatch: expected " ++ optValue expected.value ++
                 ", got " ++ optValue actual.value }]
          else []
      | .object => objPartsWith (compareNodesFx fuel) expected actual path
      | .array | .tuple => arrayPartsWith (compareNodesFx fuel) expected actual path
      | .union | .intersection => compareComposites expected actual path
      | .generic =>
          (if expected.name ≠ actual.name then
            [{ path := path, kind := DiffKind.TypeMismatch,
               expected := expected.name, actual := actual.name,
               message := "Generic type mismatch: expected " ++ optName expected.name ++
                 ", got " ++ optName actual.name }]
           else []) ++ arrayPartsWith (compareNodesFx fuel) expected actual path
      | _ => []

theorem compareNodesFx_eq :
    ∀ (fuel : Nat) (expected actual : TypeNode) (path : List Seg),
      sizeOf expected < fuel →
      compareNodesFx fuel expected actual path = compareNodes expected actual path := by
  intro fuel
  induction fuel with
  | zero => intro e a p h; exact absurd h (by omega)
  | succ fuel ih =>
      intro e a p h
      have hrec : ∀ x ∈ e.children, ∀ y q,
          compareNodesFx fuel x y q = compareNodes x y q := by
        intro x hx y q
        have h1 := List.sizeOf_lt_of_mem hx
        have h2 := TypeNode.sizeOf_children_lt e
        exact ih x y q (by omega)
      rw [compareNodes, compareNodesFx]
      by_cases hk : e.kind = a.kind
      · rw [if_neg (not_not_intro hk), if_neg (not_not_intro hk)]
        cases hkind : e.kind <;>
          first
            | rfl
            | (rw [compareObjects_eq]; exact objPartsWith_congr e a p hrec)
            | (rw [compareArrays_eq]; exact arrayPartsWith_congr e a p hrec)
            | (rw [compareArrays_eq]; exact congrArg _ (arrayPartsWith_congr e a p hrec))
      · rw [if_pos hk, if_pos hk]

/-- Fuel-indexed executable twin of `compare`. -/
def compareFx (fuel : Nat) (expected actual : TypeNode) (path : List Seg) : DiffResult :=
  let diffs := compareNodesFx fuel expected actual path
  { diffs := diffs,
    hasChanges := decide (diffs.length > 0),
    summary :=
      { missing := (diffs.filter (fun d => d.kind == DiffKind.Missing)).length,
        extra := (diffs.filter (fun d => d.kind == DiffKind.Extra)).length,
        mismatch := (diffs.filter (fun d =>
          d.kind == DiffKind.TypeMismatch || d.kind == DiffKind.ValueMismatch)).length } }

theorem compare_eq_fx (fuel : Nat) (expected actual : TypeNode) (path : List Seg)
    (h : sizeOf expected < fuel) :
    compare expected actual path = compareFx fuel expected actual path := by
  rw [compare, compareFx, compareNodesFx_eq fuel expected actual path h]

/-- Identity of a `ts.Type` handle.  The checker hands out reference-identical
handles for one resolved type; identity is modelled by a numeric id. -/
abbrev TypeId := Nat

/-- One parameter symbol of a call signature, carrying the answers to the three
queries the serializer makes: `param.name`, `param.flags & SymbolFlags.Optional`,
and `checker.getTypeOfSymbolAtLocation(param, param.valueDeclaration)`. -/
structure ParamInfo where
  name : String
  «optional» : Bool
  ty : TypeId
deriving DecidableEq, Repr

/-- One call signature: `getParameters()` and `getReturnType()`. -/
structure SigInfo where
  params : List ParamInfo
  ret : TypeId
deriving DecidableEq, Repr

/-- One property symbol of an object type: `prop.name`, the `Optional` symbol
flag, the combined `Readonly` modifier of its value declaration, and
`checker.getTypeOfSymbolAtLocation(prop, prop.valueDeclaration)`. -/
structure PropInfo where
  name : String
  «optional» : Bool
  «readonly» : Bool
  ty : TypeId
deriving DecidableEq, Repr

/-- The answers the `ts.TypeChecker`/`ts.Type` API gives for one type handle.
Each field models exactly one query `serializeType` performs; the fields are
independent booleans because the underlying API predicates are. -/
structure TypeInfo where
  isUnion : Bool := false
  isIntersection : Bool := false
  /-- `type.types` (union or intersection members). -/
  types : List TypeId := []
  isStringLiteral : Bool := false
  strValue : String := ""
  isNumberLiteral : Bool := false
  numValue : Int := 0
  flagBooleanLiteral : Bool := false
  /-- `(type as any).intrinsicName`. -/
  intrinsicName : String := ""
  flagString : Bool := false
  flagNumber : Bool := false
  flagBoolean : Bool := false
  flagNull : Bool := false
  flagUndefined : Bool := false
  flagVoid : Bool := false
  flagAny : Bool := false
  flagUnknown : Bool := false
  flagNever : Bool := false
  isArrayType : Bool := false
  /-- `(type as ts.TypeReference).typeArguments` (possibly undefined). -/
  typeArguments : Option (List TypeId) := none
  isTupleType : Bool := false
  callSignatures : List SigInfo := []
  flagConditional : Bool := false
  flagTemplateLiteral : Bool := false
  flagIndexedAccess : Bool := false
  properties : List PropInfo := []
  /-- `type.aliasSymbol?.name`. -/
  aliasSymbol : Option String := none
  aliasTypeArguments : Option (List TypeId) := none
  typeToString : String := ""

/-- The checking context: what every handle answers. -/
abbrev TypeEnv := TypeId → TypeInfo

/-- part_003 lines 16-19, `TypeCache`: `seen: Set<ts.Type>` and
`depth: Map<ts.Type, number>`. -/
structure TypeCache where
  seen : List TypeId
  depth : List (TypeId × Nat)
deriving DecidableEq, Repr

/-- The fresh cache `{ seen: new Set(), depth: new Map() }`. -/
def emptyCache : TypeCache := { seen := [], depth := [] }

/-- JS `Set.has`. -/
def TypeCache.seenHas (c : TypeCache) (t : TypeId) : Bool := c.seen.contains t

/-- JS `Map.get` on the depth map. -/
def TypeCache.depthGet (c : TypeCache) (t : TypeId) : Option Nat :=
  (c.depth.find? (fun p => p.1 == t)).map (fun p => p.2)

/-- JS `Map.set` on the depth map: overwrite in place, else append. -/
def depthSet (m : List (TypeId × Nat)) (t : TypeId) (d : Nat) : List (TypeId × Nat) :=
  if m.any (fun p => p.1 == t) then m.map (fun p => if p.1 == t then (t, d) else p)
  else m ++ [(t, d)]

/-- Lines 83-84: `this.cache.seen.add(type); this.cache.depth.set(type, depth)`.
Note the depth entry is overwritten on every visit. -/
def TypeCache.add (c : TypeCache) (t : TypeId) (d : Nat) : TypeCache :=
  { seen := if c.seen.contains t then c.seen else c.seen ++ [t],
    depth := depthSet c.depth t d }

/-- `{...serialized, name: param.name, optional: isOptional}` (lines 259-263). -/
def TypeNode.withParamMeta (n : TypeNode) (nm : String) (opt : Bool) : TypeNode :=
  match n with
  | .mk k _ v cs _ ro => .mk k (some nm) v cs opt ro

/-- `{...serialized, name, optional, readonly}` for an object property (lines 197-202). -/
def TypeNode.withPropMeta (n : TypeNode) (nm : String) (opt ro : Bool) : TypeNode :=
  match n with
  | .mk k _ v cs _ _ => .mk k (some nm) v cs opt ro

/-- `{ ...returnNode, name: 'return' }` (line 271). -/
def TypeNode.withName (n : TypeNode) (nm : String) : TypeNode :=
  match n with
  | .mk k _ v cs o ro => .mk k (some nm) v cs o ro

/-- Left-to-right effectful map: threads the mutable `this.cache` through the
`Array.prototype.map` loops of the serializer. -/
def statMap {α β : Type} (f : α → TypeCache → β × TypeCache) :
    List α → TypeCache → List β × TypeCache
  | [], c => ([], c)
  | x :: xs, c =>
      let r := f x c
      let rs := statMap f xs r.2
      (r.1 :: rs.1, rs.2)

/-- The classification chain of part_003 `serializeType` (lines 86-228), after
the depth guard, the circular check and the `seen`/`depth` bookkeeping have run.
Every recursive call in the source is `this.serializeType(·, depth + 1, maxDepth,
options)`, abstracted here as `rec`. -/
def serializeTypeBody (rec : TypeId → TypeCache → TypeNode × TypeCache)
    (env : TypeEnv) (t : TypeId) (cache : TypeCache) : TypeNode × TypeCache :=
  let info := env t
  if info.isUnion then
    let r := statMap rec info.types cache
    (.mk .union none none r.1 false false, r.2)
  else if info.isIntersection then
    let r := statMap rec info.types cache
    (.mk .intersection none none r.1 false false, r.2)
  else if info.isStringLiteral then
    (.mk .literal none (some (.str info.strValue)) [] false false, cache)
  else if info.isNumberLiteral then
    (.mk .literal none (some (.num info.numValue)) [] false false, cache)
  else if info.flagBooleanLiteral then
    (.mk .literal none (some (.bool (info.intrinsicName == "true"))) [] false false, cache)
  else if info.flagString then (.mk .primitive (some "string") none [] false false, cache)
  else if info.flagNumber then (.mk .primitive (some "number") none [] false false, cache)
  else if info.flagBoolean then (.mk .primitive (some "boolean") none [] false false, cache)
  else if info.flagNull then (.mk .primitive (some "null") none [] false false, cache)
  else if info.flagUndefined then (.mk .primitive (some "undefined") none [] false false, cache)
  else if info.flagVoid then (.mk .primitive (some "void") none [] false false, cache)
  else if info.flagAny then (.mk .primitive (some "any") none [] false false, cache)
  else if info.flagUnknown then (.mk .unknown (some "unknown") none [] false false, cache)
  else if info.flagNever then (.mk .primitive (some "never") none [] false false, cache)
  else if info.isArrayType then
    match info.typeArguments.bind (fun l => l[0]?) with
    | some elemT =>
        let r := rec elemT cache
        (.mk .array none none [r.1] false false, r.2)
    | none => (.mk .array none none [] false false, cache)
  else if info.isTupleType then
    let r := statMap rec (info.typeArguments.getD []) cache
    (.mk .tuple none none r.1 false false, r.2)
  else if info.callSignatures.length > 0 then
    -- `serializeFunctionType` (lines 241-273), inlined at its single call site
    match info.callSignatures with
    | [] => (.mk .unknown (some "function") none [] false false, cache)
    | signature :: _ =>
        let pr := statMap (fun (param : ParamInfo) cc =>
            let r := rec param.ty cc
            (r.1.withParamMeta param.name param.optional, r.2)) signature.params cache
        let rr := rec signature.ret pr.2
        (.mk .function (some "function") none (pr.1 ++ [rr.1.withName "return"]) false false,
         rr.2)
  else if info.flagConditional then
    (.mk .conditional (some info.typeToString) none [] false false, cache)
  else if info.flagTemplateLiteral then
    (.mk .template (some info.typeToString) none [] false false, cache)
  else if info.flagIndexedAccess then
    (.mk .indexed (some info.typeToString) none [] false false, cache)
  else if info.properties.length > 0 then
    let r := statMap (fun (prop : PropInfo) cc =>
        let rp := rec prop.ty cc
        (rp.1.withPropMeta prop.name prop.optional prop.readonly, rp.2)) info.properties cache
    (.mk .object none none r.1 false false, r.2)
  else
    match info.aliasSymbol with
    | some aliasName =>
        match info.aliasTypeArguments with
        | some args =>
            if args.length > 0 then
              let r := statMap rec args cache
              (.mk .generic (some aliasName) none r.1 false false, r.2)
            else (.mk .unknown (some info.typeToString) none [] false false, cache)
        | none => (.mk .unknown (some info.typeToString) none [] false false, cache)
    | none => (.mk .unknown (some info.typeToString) none [] false false, cache)

/-- part_003 `serializeType` (lines 64-229): depth guard, circular check against
the visited cache, bookkeeping (lines 83-84, which overwrite the depth entry on
every visit), then the classification chain.  The Nat subtraction in the gap test
agrees with the JS number subtraction: when the stored depth exceeds the current
one the JS difference is negative and the Nat difference is zero, and neither
exceeds 2. -/
def serializeType (env : TypeEnv) (t : TypeId) (depth maxDepth : Nat)
    (cache : TypeCache) : TypeNode × TypeCache :=
  if depth > maxDepth then (.mk .unknown (some "...") none [] false false, cache)
  else if cache.seenHas t ∧ depth - (cache.depthGet t).getD 0 > 2 then
    (.mk .unknown (some "[Circular]") none [] false false, cache)
  else
    serializeTypeBody (fun u cc => serializeType env u (depth + 1) maxDepth cc)
      env t (cache.add t depth)
termination_by maxDepth + 1 - depth
decreasing_by omega

/-- Fuel-indexed executable twin of `serializeType`; `serializeTypeFx_eq` proves
agreement whenever the fuel exceeds the remaining depth budget. -/
def serializeTypeFx : Nat → TypeEnv → TypeId → Nat → Nat → TypeCache →
    TypeNode × TypeCache
  | 0, _, _, _, _, cache => (.mk .unknown none none [] false false, cache)
  | gas + 1, env, t, depth, maxDepth, cache =>
    if depth > maxDepth then (.mk .unknown (some "...") none [] false false, cache)
    else if cache.seenHas t ∧ depth - (cache.depthGet t).getD 0 > 2 then
      (.mk .unknown (some "[Circular]") none [] false false, cache)
    else
      serializeTypeBody (fun u cc => serializeTypeFx gas env u (depth + 1) maxDepth cc)
        env t (cache.add t depth)

theorem serializeTypeFx_eq :
    ∀ (gas : Nat) (env : TypeEnv) (t : TypeId) (depth maxDepth : Nat) (cache : TypeCache),
      maxDepth + 1 - depth < gas →
      serializeTypeFx gas env t depth maxDepth cache =
        serializeType env t depth maxDepth cache := by
  intro gas
  induction gas with
  | zero => intro env t depth maxDepth cache h; exact absurd h (by omega)
  | succ gas ih =>
      intro env t depth maxDepth cache h
      rw [serializeTypeFx, serializeType]
      by_cases h1 : depth > maxDepth
      · rw [if_pos h1, if_pos h1]
      · rw [if_neg h1, if_neg h1]
        by_cases h2 : cache.seenHas t ∧ depth - (cache.depthGet t).getD 0 > 2
        · rw [if_pos h2, if_pos h2]
        · rw [if_neg h2, if_neg h2]
          have hfun : (fun u cc => serializeTypeFx gas env u (depth + 1) maxDepth cc) =
              (fun u cc => serializeType env u (depth + 1) maxDepth cc) :=
            funext (fun u => funext (fun cc => ih env u (depth + 1) maxDepth cc (by omega)))
          rw [hfun]

/-- part_003 `serializeFunctionType` (lines 241-273), as the named source method:
first call signature only, parameter nodes tagged with name/optional, then the
synthetic `"return"` child. -/
def serializeFunctionType (env : TypeEnv) (t : TypeId) (depth maxDepth : Nat)
    (cache : TypeCache) : TypeNode × TypeCache :=
  let signatures := (env t).callSignatures
  match signatures with
  | [] => (.mk .unknown (some "function") none [] false false, cache)
  | signature :: _ =>
      let pr := statMap (fun (param : ParamInfo) cc =>
          let r := serializeType env param.ty (depth + 1) maxDepth cc
          (r.1.withParamMeta param.name param.optional, r.2)) signature.params cache
      let rr := serializeType env signature.ret (depth + 1) maxDepth pr.2
      (.mk .function (some "function") none (pr.1 ++ [rr.1.withName "return"]) false false,
       rr.2)

/-- part_003 `SerializationOptions` (lines 7-11). -/
structure SerializationOptions where
  maxDepth : Option Nat := none
  includeSignatures : Option Bool := none
  expandAliases : Option Bool := none

/-- part_003 `SerializedType` as far as the core claims reach: `id` is the impure
`createId()` and `filePath`/`position` are argument pass-throughs, so only
`displayName` (`checker.typeToString(type)`) and `typeNode` are modelled. -/
structure SerializedType where
  displayName : String
  typeNode : TypeNode
deriving DecidableEq

/-- part_003 `serialize` (lines 36-59).  `staleCache` models the instance field
`this.cache` as the method finds it; lines 42-47 replace it with a fresh cache
before any work, so the argument is dead.  `maxDepth` is `options?.maxDepth ?? 10`. -/
def serialize (env : TypeEnv) (t : TypeId) (opts : Option SerializationOptions)
    (staleCache : TypeCache) : SerializedType × TypeCache :=
  let cache : TypeCache := { seen := [], depth := [] }
  let maxDepth := (opts.bind (fun o => o.maxDepth)).getD 10
  let r := serializeType env t 0 maxDepth cache
  ({ displayName := (env t).typeToString, typeNode := r.1 }, r.2)

/-- Variant of `serializeType` that follows the specification text for the
visited map: the depth of a handle is recorded once, at the first visit, and
never overwritten afterwards.  Only the bookkeeping step differs from
`serializeType`; it exists to compare the specified circular check with the
implemented one. -/
def serializeTypeFirstSeen (env : TypeEnv) (t : TypeId) (depth maxDepth : Nat)
    (cache : TypeCache) : TypeNode × TypeCache :=
  if depth > maxDepth then (.mk .unknown (some "...") none [] false false, cache)
  else if cache.seenHas t ∧ depth - (cache.depthGet t).getD 0 > 2 then
    (.mk .unknown (some "[Circular]") none [] false false, cache)
  else
    serializeTypeBody (fun u cc => serializeTypeFirstSeen env u (depth + 1) maxDepth cc)
      env t
      { seen := if cache.seen.contains t then cache.seen else cache.seen ++ [t],
        depth := if cache.depth.any (fun p => p.1 == t) then cache.depth
                 else cache.depth ++ [(t, depth)] }
termination_by maxDepth + 1 - depth
decreasing_by omega

/-- Fuel-indexed executable twin of `serializeTypeFirstSeen`. -/
def serializeTypeFirstSeenFx : Nat → TypeEnv → TypeId → Nat → Nat → TypeCache →
    TypeNode × TypeCache
  | 0, _, _, _, _, cache => (.mk .unknown none none [] false false, cache)
  | gas + 1, env, t, depth, maxDepth, cache =>
    if depth > maxDepth then (.mk .unknown (some "...") none [] false false, cache)
    else if cache.seenHas t ∧ depth - (cache.depthGet t).getD 0 > 2 then
      (.mk .unknown (some "[Circular]") none [] false false, cache)
    else
      serializeTypeBody
        (fun u cc => serializeTypeFirstSeenFx gas env u (depth + 1) maxDepth cc)
        env t
        { seen := if cache.seen.contains t then cache.seen else cache.seen ++ [t],
          depth := if cache.depth.any (fun p => p.1 == t) then cache.depth
                   else cache.depth ++ [(t, depth)] }

theorem serializeTypeFirstSeenFx_eq :
    ∀ (gas : Nat) (env : TypeEnv) (t : TypeId) (depth maxDepth : Nat) (cache : TypeCache),
      maxDepth + 1 - depth < gas →
      serializeTypeFirstSeenFx gas env t depth maxDepth cache =
        serializeTypeFirstSeen env t depth maxDepth cache := by
  intro gas
  induction gas with
  | zero => intro env t depth maxDepth cache h; exact absurd h (by omega)
  | succ gas ih =>
      intro env t depth maxDepth cache h
      rw [serializeTypeFirstSeenFx, serializeTypeFirstSeen]
      by_cases h1 : depth > maxDepth
      · rw [if_pos h1, if_pos h1]
      · rw [if_neg h1, if_neg h1]
        by_cases h2 : cache.seenHas t ∧ depth - (cache.depthGet t).getD 0 > 2
        · rw [if_pos h2, if_pos h2]
        · rw [if_neg h2, if_neg h2]
          have hfun : (fun u cc => serializeTypeFirstSeenFx gas env u (depth + 1) maxDepth cc) =
              (fun u cc => serializeTypeFirstSeen env u (depth + 1) maxDepth cc) :=
            funext (fun u => funext (fun cc => ih env u (depth + 1) maxDepth cc (by omega)))
          rw [hfun]

mutual

/-- Whether the tree contains a node whose `name` is the given string. -/
def containsName (s : String) : TypeNode → Bool
  | .mk _ nm _ cs _ _ => (nm == some s) || containsNameList s cs

def containsNameList (s : String) : List TypeNode → Bool
  | [] => false
  | c :: cs => containsName s c || containsNameList s cs

end

/-- No key occurs twice. -/
def nodupKeys : List Seg → Bool
  | [] => true
  | k :: ks => (!ks.contains k) && nodupKeys ks

mutual

/-- Whether the tree contains a node of the given kind. -/
def containsKind (k : TypeKind) : TypeNode → Bool
  | .mk k2 _ _ cs _ _ => (k2 == k) || containsKindList k cs

def containsKindList (k : TypeKind) : List TypeNode → Bool
  | [] => false
  | c :: cs => containsKind k c || containsKindList k cs

end

/-- Modelled from the spec: the differ utility `formatPath` is exercised by
core/src/differ/typeDiffer.test.ts (lines 551-556) but absent from the
`TypeDiffer` class under src; per the spec it joins the segments with `"."`,
returning the literal string `"root"` for an empty path. -/
def formatPath (path : List String) : String :=
  if path.isEmpty then "root" else String.intercalate "." path

/-- First child whose `name` equals the key: the plain-list reading of the
name-keyed lookup once the keys are known to be distinct. -/
def findByName (cs : List TypeNode) (k : Seg) : Option TypeNode :=
  cs.find? (fun c => c.name == k)

theorem flatten_eq_nil_of_all {α : Type} :
    ∀ {L : List (List α)}, (∀ l ∈ L, l = []) → L.flatten = []
  | [], _ => rfl
  | l :: L, h => by
      rw [List.flatten_cons, h l (by simp)]
      simpa using flatten_eq_nil_of_all (fun l' hl' => h l' (by simp [hl']))

/-- Strong induction over type trees: induct on a node given the property for
all its children. -/
theorem TypeNode.strongInduction {P : TypeNode → Prop}
    (ih : ∀ n, (∀ c ∈ n.children, P c) → P n) (n : TypeNode) : P n :=
  ih n (fun c hc => TypeNode.strongInduction ih c)
termination_by sizeOf n
decreasing_by
  have h1 := List.sizeOf_lt_of_mem hc
  have h2 := TypeNode.sizeOf_children_lt n
  omega

@[simp] theorem TypeNode.withParamMeta_name (n : TypeNode) (nm : String) (o : Bool) :
    (n.withParamMeta nm o).name = some nm := by
  cases n; rfl

@[simp] theorem TypeNode.withParamMeta_optionalFlag (n : TypeNode) (nm : String) (o : Bool) :
    (n.withParamMeta nm o).optionalFlag = o := by
  cases n; rfl

@[simp] theorem TypeNode.withName_name (n : TypeNode) (nm : String) :
    (n.withName nm).name = some nm := by
  cases n; rfl

theorem statMap_forall₂ {α β : Type} (f : α → TypeCache → β × TypeCache)
    (R : α → β → Prop) (h : ∀ x c, R x (f x c).1) :
    ∀ (l : List α) (c : TypeCache), List.Forall₂ R l (statMap f l c).1
  | [], _ => List.Forall₂.nil
  | x :: xs, c => by
      rw [statMap]
      exact List.Forall₂.cons (h x c) (statMap_forall₂ f R h xs (f x c).2)

/-- The keys of an association list are pairwise distinct (the invariant of a
JS `Map`). -/
def keysUnique (m : PropMap) : Prop := m.Pairwise (fun p q => p.1 ≠ q.1)

theorem keysUnique_mapSet {m : PropMap} {k : Seg} {v : TypeNode}
    (h : keysUnique m) : keysUnique (mapSet m k v) := by
  unfold keysUnique at h ⊢
  unfold mapSet
  split
  · have key_f : ∀ p : Seg × TypeNode, (if p.1 == k then (k, v) else p).1 = p.1 := by
      intro p
      split
      · next hh => exact (eq_of_beq hh).symm
      · rfl
    refine List.Pairwise.map _ ?_ h
    intro p q hpq
    rw [key_f, key_f]
    exact hpq
  · rename_i hany
    rw [List.pairwise_append]
    refine ⟨h, List.pairwise_singleton _ _, ?_⟩
    intro p hp q hq
    simp only [List.mem_singleton] at hq
    subst hq
    intro hk1
    exact hany (List.any_eq_true.mpr ⟨p, hp, by simp [hk1]⟩)

theorem keysUnique_buildPropMap (cs : List TypeNode) : keysUnique (buildPropMap cs) := by
  suffices H : ∀ (cs : List TypeNode) (m : PropMap), keysUnique m →
      keysUnique (cs.foldl (fun m c => mapSet m c.name c) m) from
    H cs [] List.Pairwise.nil
  intro cs
  induction cs with
  | nil => intro m hm; exact hm
  | cons c cs ih => intro m hm; exact ih (mapSet m c.name c) (keysUnique_mapSet hm)

theorem find?_eq_of_mem {m : PropMap} {kv : Seg × TypeNode}
    (h : keysUnique m) (hm : kv ∈ m) :
    m.find? (fun p => p.1 == kv.1) = some kv := by
  induction m with
  | nil => simp at hm
  | cons p m ih =>
      rcases List.mem_cons.mp hm with h1 | h1
      · subst h1
        simp [List.find?]
      · have hne : p.1 ≠ kv.1 := (List.pairwise_cons.mp h).1 kv h1
        rw [List.find?]
        have : (p.1 == kv.1) = false := by simpa using hne
        rw [this]
        exact ih (List.pairwise_cons.mp h).2 h1

theorem mapGet_of_mem {cs : List TypeNode} {kv : Seg × TypeNode}
    (h : kv ∈ buildPropMap cs) :
    mapGet (buildPropMap cs) kv.1 = some kv.2 := by
  unfold mapGet
  rw [find?_eq_of_mem (keysUnique_buildPropMap cs) h]
  rfl

theorem mapHas_of_mem {m : PropMap} {kv : Seg × TypeNode} (hm : kv ∈ m) :
    mapHas m kv.1 = true := by
  unfold mapHas
  rw [List.find?_isSome]
  exact ⟨kv, hm, by simp⟩

mutual

/-- Whether every object node in the tree has pairwise-distinct property keys
(the `c.name!` keys of the differ maps). -/
def noDupProps : TypeNode → Bool
  | .mk k _ _ cs _ _ =>
      (if k = .object then nodupKeys (cs.map TypeNode.name) else true) && noDupPropsList cs

def noDupPropsList : List TypeNode → Bool
  | [] => true
  | c :: cs => noDupProps c && noDupPropsList cs

end

/-- The differ never reports a difference between a node and itself. -/
theorem compareNodes_self (n : TypeNode) : ∀ (p : List Seg), compareNodes n n p = [] := by
  induction n using TypeNode.strongInduction with
  | ih n IH =>
      intro p
      rw [compareNodes]
      rw [if_neg (by simp)]
      have hobj : compareObjects n n p = [] := by
        rw [compareObjects_eq, objPartsWith]
        rw [flatten_eq_nil_of_all, flatten_eq_nil_of_all, List.append_nil]
        · intro l hl
          rcases List.mem_map.mp hl with ⟨ap, hap, hl2⟩
          rw [mapHas_of_mem hap] at hl2
          exact hl2.symm
        · intro l hl
          rcases List.mem_map.mp hl with ⟨ep, hep, hl2⟩
          rw [mapGet_of_mem hep] at hl2
          rw [← hl2]
          exact IH ep.2 (snd_mem_of_mem_buildPropMap hep) (p ++ [ep.1])
      have harr : compareArrays n n p = [] := by
        rw [compareArrays_eq, arrayPartsWith]
        rw [flatten_eq_nil_of_all]
        intro l hl
        rcases List.mem_map.mp hl with ⟨i, hi, hl2⟩
        simp only [List.mem_range, Nat.max_self] at hi
        rcases h1 : n.children[i]? with _ | c
        · exact absurd (List.getElem?_eq_none_iff.mp h1) (by omega)
        · rw [h1] at hl2
          rw [← hl2]
          exact IH c (List.getElem?_mem h1) (p ++ [some ("[" ++ toString i ++ "]")])
      cases hkind : n.kind
      any_goals rfl
      any_goals simp
      any_goals exact hobj
      any_goals exact harr
      any_goals simp [compareComposites]

theorem objPartsWith_path {f : TypeNode → TypeNode → List Seg → List TypeDiff}
    (e a : TypeNode) (p : List Seg)
    (hf : ∀ x ∈ e.children, ∀ y q (d : TypeDiff), d ∈ f x y q → ∃ s, d.path = q ++ s) :
    ∀ d ∈ objPartsWith f e a p, ∃ nm s, d.path = p ++ nm :: s := by
  intro d hd
  rw [objPartsWith] at hd
  rcases List.mem_append.mp hd with hd | hd
  · rcases List.mem_flatten.mp hd with ⟨l, hl, hdl⟩
    rcases List.mem_map.mp hl with ⟨ep, hep, hle⟩
    subst hle
    cases hg : mapGet (buildPropMap a.children) ep.1 with
    | none =>
        simp only [hg] at hdl
        split at hdl
        · simp at hdl
        · simp only [List.mem_singleton] at hdl
          subst hdl
          exact ⟨ep.1, [], rfl⟩
    | some ap =>
        simp only [hg] at hdl
        rcases hf ep.2 (snd_mem_of_mem_buildPropMap hep) ap (p ++ [ep.1]) d hdl with ⟨s, hs⟩
        exact ⟨ep.1, s, by rw [hs]; simp⟩
  · rcases List.mem_flatten.mp hd with ⟨l, hl, hdl⟩
    rcases List.mem_map.mp hl with ⟨ap, hap, hle⟩
    subst hle
    split at hdl
    · simp at hdl
    · simp only [List.mem_singleton] at hdl
      subst hdl
      exact ⟨ap.1, [], rfl⟩

theorem arrayPartsWith_path {f : TypeNode → TypeNode → List Seg → List TypeDiff}
    (e a : TypeNode) (p : List Seg)
    (hf : ∀ x ∈ e.children, ∀ y q (d : TypeDiff), d ∈ f x y q → ∃ s, d.path = q ++ s) :
    ∀ d ∈ arrayPartsWith f e a p, ∃ nm s, d.path = p ++ nm :: s := by
  intro d hd
  rw [arrayPartsWith] at hd
  rcases List.mem_flatten.mp hd with ⟨l, hl, hdl⟩
  rcases List.mem_map.mp hl with ⟨i, hi, hle⟩
  subst hle
  cases h1 : e.children[i]? with
  | none =>
      simp only [h1] at hdl
      simp only [List.mem_singleton] at hdl
      subst hdl
      exact ⟨some ("[" ++ toString i ++ "]"), [], rfl⟩
  | some ec =>
      cases h2 : a.children[i]? with
      | none =>
          simp only [h1, h2] at hdl
          simp only [List.mem_singleton] at hdl
          subst hdl
          exact ⟨some ("[" ++ toString i ++ "]"), [], rfl⟩
      | some ac =>
          simp only [h1, h2] at hdl
          rcases hf ec (List.getElem?_mem h1) ac _ d hdl with ⟨s, hs⟩
          exact ⟨some ("[" ++ toString i ++ "]"), s, by rw [hs]; simp⟩

/-- When none of the earlier classifier checks of `serializeType` match and the
handle has at least one call signature, `serializeType` runs the inlined body of
`serializeFunctionType` on the bookkeeping-updated cache. -/
theorem serializeType_function (env : TypeEnv) (t : TypeId) (depth maxDepth : Nat)
    (cache : TypeCache)
    (h1 : ¬ depth > maxDepth)
    (h2 : ¬ (cache.seenHas t = true ∧ depth - (cache.depthGet t).getD 0 > 2))
    (hU : (env t).isUnion = false) (hI : (env t).isIntersection = false)
    (hSL : (env t).isStringLiteral = false) (hNL : (env t).isNumberLiteral = false)
    (hBL : (env t).flagBooleanLiteral = false)
    (hS : (env t).flagString = false) (hN : (env t).flagNumber = false)
    (hB : (env t).flagBoolean = false) (hNu : (env t).flagNull = false)
    (hUd : (env t).flagUndefined = false) (hV : (env t).flagVoid = false)
    (hA : (env t).flagAny = false) (hUk : (env t).flagUnknown = false)
    (hNv : (env t).flagNever = false)
    (hArr : (env t).isArrayType = false) (hTup : (env t).isTupleType = false)
    (hSig : (env t).callSignatures.length > 0) :
    serializeType env t depth maxDepth cache =
      serializeFunctionType env t depth maxDepth (cache.add t depth) := by
  rw [serializeType, if_neg h1, if_neg h2]
  rw [serializeFunctionType]
  simp only [serializeTypeBody, hU, hI, hSL, hNL, hBL, hS, hN, hB, hNu, hUd, hV, hA, hUk,
    hNv, hArr, hTup, Bool.false_eq_true, if_false, hSig, if_true, if_pos]

/-- The node built by `serializeFunctionType` from the first call signature:
parameter children tagged with the parameter names and optional flags, then the
synthetic `"return"` child holding the serialized return type. -/
theorem serializeFunctionType_shape (env : TypeEnv) (t : TypeId) (depth maxDepth : Nat)
    (cache : TypeCache) {signature : SigInfo} {rest : List SigInfo}
    (hsig : (env t).callSignatures = signature :: rest) :
    ∃ (paramNodes : List TypeNode) (c1 : TypeCache) (retNode : TypeNode) (c2 : TypeCache),
      statMap (fun (param : ParamInfo) cc =>
          let r := serializeType env param.ty (depth + 1) maxDepth cc
          (r.1.withParamMeta param.name param.optional, r.2)) signature.params cache
        = (paramNodes, c1) ∧
      serializeType env signature.ret (depth + 1) maxDepth c1 = (retNode, c2) ∧
      serializeFunctionType env t depth maxDepth cache =
        (.mk .function (some "function") none
          (paramNodes ++ [retNode.withName "return"]) false false, c2) ∧
      List.Forall₂ (fun (param : ParamInfo) (node : TypeNode) =>
        node.name = some param.name ∧ node.optionalFlag = param.optional)
        signature.params paramNodes := by
  refine ⟨_, _, _, _, rfl, rfl, ?_, ?_⟩
  · rw [serializeFunctionType, hsig]
  · exact statMap_forall₂ _ _ (fun x c => by simp) signature.params cache

theorem foldl_mapSet_eq_append :
    ∀ (cs : List TypeNode) (m : PropMap),
      (∀ c ∈ cs, m.any (fun p => p.1 == c.name) = false) →
      nodupKeys (cs.map TypeNode.name) = true →
      cs.foldl (fun m c => mapSet m c.name c) m = m ++ cs.map (fun c => (c.name, c)) := by
  intro cs
  induction cs with
  | nil => intro m _ _; simp
  | cons c cs ih =>
      intro m hm hnodup
      have hstep : mapSet m c.name c = m ++ [(c.name, c)] := by
        unfold mapSet
        rw [if_neg]
        simp [hm c (by simp)]
      rw [List.foldl_cons, hstep]
      simp only [nodupKeys] at hnodup
      simp only [List.map_cons, Bool.and_eq_true, Bool.not_eq_true'] at hnodup
      rw [ih (m ++ [(c.name, c)]) ?_ hnodup.2]
      · simp
      · intro c' hc'
        rw [List.any_append]
        simp only [Bool.or_eq_false_iff]
        refine ⟨hm c' (by simp [hc']), ?_⟩
        simp only [List.any_cons, List.any_nil, Bool.or_false]
        have hmem : c'.name ∈ cs.map TypeNode.name := List.mem_map_of_mem _ hc'
        have h1 := hnodup.1
        rw [List.contains_eq_any_beq] at h1
        rw [List.any_eq_false] at h1
        simpa using h1 c'.name hmem

/-- Once the property keys are distinct, the JS map built by `compareObjects` is
just the children paired with their names, in order. -/
theorem buildPropMap_of_nodup {cs : List TypeNode}
    (h : nodupKeys (cs.map TypeNode.name) = true) :
    buildPropMap cs = cs.map (fun c => (c.name, c)) := by
  unfold buildPropMap
  rw [foldl_mapSet_eq_append cs [] (by simp) h]
  simp

theorem mapGet_pairs (cs : List TypeNode) (k : Seg) :
    mapGet (cs.map (fun c => (c.name, c))) k = findByName cs k := by
  unfold mapGet findByName
  rw [List.find?_map]
  have hpred : ((fun p : Seg × TypeNode => p.1 == k) ∘ fun c : TypeNode => (c.name, c)) =
      (fun c : TypeNode => c.name == k) := rfl
  rw [hpred]
  rcases h : cs.find? (fun c => c.name == k) with _ | c <;> simp [h]

theorem mapHas_pairs (cs : List TypeNode) (k : Seg) :
    mapHas (cs.map (fun c => (c.name, c))) k = (findByName cs k).isSome := by
  unfold mapHas findByName
  rw [List.find?_map]
  have hpred : ((fun p : Seg × TypeNode => p.1 == k) ∘ fun c : TypeNode => (c.name, c)) =
      (fun c : TypeNode => c.name == k) := rfl
  rw [hpred]
  rcases h : cs.find? (fun c => c.name == k) with _ | c <;> simp [h]

theorem flatten_map_ite {α β : Type} (cnd : α → Bool) (g : α → β) :
    ∀ (l : List α),
      (l.map (fun x => if cnd x then ([] : List β) else [g x])).flatten
        = (l.filter (fun x => !cnd x)).map g := by
  intro l
  induction l with
  | nil => rfl
  | cons x l ih =>
      rcases h : cnd x with _ | _ <;>
        simp [List.filter_cons, h, ih]

/-- Every diff the recursion produces extends the path it was called with. -/
theorem compareNodes_path (e : TypeNode) :
    ∀ (a : TypeNode) (p : List Seg) (d : TypeDiff),
      d ∈ compareNodes e a p → ∃ s, d.path = p ++ s := by
  induction e using TypeNode.strongInduction with
  | ih e IH =>
      intro a p d hd
      have hf : ∀ x ∈ e.children, ∀ y q (d : TypeDiff), d ∈ compareNodes x y q →
          ∃ s, d.path = q ++ s := fun x hx y q d hd => IH x hx y q d hd
      rw [compareNodes] at hd
      split at hd
      · simp only [List.mem_singleton] at hd
        subst hd
        exact ⟨[], by simp⟩
      · -- the alternation patterns of the switch expand into one matcher arm
        -- per kind; handle the membership hypothesis arm by arm
        split at hd
        all_goals
          first
            | (rw [compareObjects_eq] at hd
               rcases objPartsWith_path e a p hf d hd with ⟨nm, s, hs⟩
               exact ⟨nm :: s, hs⟩)
            | (rcases List.mem_append.mp hd with hd | hd <;>
                first
                  | (split at hd <;>
                      first
                        | (simp only [List.mem_singleton] at hd
                           subst hd
                           exact ⟨[], by simp⟩)
                        | simp at hd)
                  | (rw [compareArrays_eq] at hd
                     rcases arrayPartsWith_path e a p hf d hd with ⟨nm, s, hs⟩
                     exact ⟨nm :: s, hs⟩))
            | (rw [compareArrays_eq] at hd
               rcases arrayPartsWith_path e a p hf d hd with ⟨nm, s, hs⟩
               exact ⟨nm :: s, hs⟩)
            | (simp only [compareComposites] at hd
               split at hd <;>
                 first
                   | (simp only [List.mem_singleton] at hd
                      subst hd
                      exact ⟨[], by simp⟩)
                   | simp at hd)
            | (split at hd <;>
                first
                  | (simp only [List.mem_singleton] at hd
                     subst hd
                     exact ⟨[], by simp⟩)
                  | simp at hd)
            | simp at hd

/-! ### Concrete fixtures used by witnesses and counterexamples -/

/-- `{ kind: 'literal', value: v }`. -/
def litS (v : String) : TypeNode := .mk .literal none (some (.str v)) [] false false

/-- `union['a' | 'b' | 'c']` from the differ test at lines 288-295. -/
def unionABC : TypeNode := .mk .union none none [litS "a", litS "b", litS "c"] false false

/-- `union['a' | 'b']` from the differ test at lines 296-302. -/
def unionAB : TypeNode := .mk .union none none [litS "a", litS "b"] false false

/-- `{ kind: 'primitive', name: nm }`. -/
def prim (nm : String) : TypeNode := .mk .primitive (some nm) none [] false false

/-- `object { a: primitive }` from the kind-mismatch test. -/
def objWithA : TypeNode :=
  .mk .object none none [.mk .primitive (some "a") none [] false false] false false

/-- `object { id, name }`. -/
def objIdName : TypeNode :=
  .mk .object none none
    [.mk .primitive (some "id") none [] false false,
     .mk .primitive (some "name") none [] false false] false false

/-- `object { id, email?: }` (`email` marked optional). -/
def objIdEmailOpt : TypeNode :=
  .mk .object none none
    [.mk .primitive (some "id") none [] false false,
     .mk .primitive (some "email") none [] true false] false false

/-- `object { id }`. -/
def objId : TypeNode :=
  .mk .object none none [.mk .primitive (some "id") none [] false false] false false

/-- The checking context of the spec example `Node = {value: string; next?: Node}`:
handle 0 is the object type whose `next` property resolves back to handle 0, and
handle 1 is `string`. -/
def envLL : TypeEnv := fun t =>
  match t with
  | 0 =>
    { properties := [
        { name := "value", «optional» := false, «readonly» := false, ty := 1 },
        { name := "next", «optional» := true, «readonly» := false, ty := 0 }],
      typeToString := "LinkedListNode" }
  | _ => { flagString := true, typeToString := "string" }

/-- A self-referential array type: handle 0 answers `isArrayType` with element
type handle 0 itself. -/
def envArr : TypeEnv := fun _ =>
  { isArrayType := true, typeArguments := some [0], typeToString := "RecArray" }

/-- A union type whose handle also carries a call signature (TypeScript produces
such handles for unions of callables): `isUnion` wins the classification race. -/
def envUF : TypeEnv := fun t =>
  match t with
  | 0 =>
    { isUnion := true, types := [1],
      callSignatures := [{ params := [], ret := 1 }],
      typeToString := "(() => string)" }
  | _ => { flagString := true, typeToString := "string" }

/-- A plain callable type: handle 0 has one call signature
`(id: string, name?: string) => string`; handle 1 is `string`. -/
def envF : TypeEnv := fun t =>
  match t with
  | 0 =>
    { callSignatures := [
        { params := [
            { name := "id", «optional» := false, ty := 1 },
            { name := "name", «optional» := true, ty := 1 }],
          ret := 1 }],
      typeToString := "(id: string, name?: string) => string" }
  | _ => { flagString := true, typeToString := "string" }

/-! ### Claims -/

/-- C1: on `compare(union['a','b','c'], union['a','b'])` the differ in
core/src/differ/typeDiffer.ts does not produce the `Missing`/`Extra` set diff
its own tests demand (typeDiffer.test.ts lines 304-310 and 449-526); its
`compareComposites` performs only a length check and emits a single
`TypeMismatch` diff `"union with 3 types"` vs `"union with 2 types"`. -/
theorem C1_composites_length_check_only :
    compare unionABC unionAB [] =
      { diffs := [{ path := [], kind := DiffKind.TypeMismatch,
                    expected := some "union with 3 types",
                    actual := some "union with 2 types",
                    message := "union length mismatch" }],
        hasChanges := true,
        summary := { missing := 0, extra := 0, mismatch := 1 } } := by
  rw [compare_eq_fx 1000000 unionABC unionAB [] (by decide)]
  decide

/-- C4: whenever the two nodes' kinds differ, `compare` emits exactly one
`TypeMismatch` diff at the current path, rendering both nodes via
`nodeToString` (name, else literal value, else kind), and descends no further:
the diff list is that singleton, so no diff below the subtree exists. -/
theorem C4_kind_mismatch_halts (expected actual : TypeNode) (path : List Seg)
    (h : expected.kind ≠ actual.kind) :
    compare expected actual path =
      { diffs := [{ path := path, kind := DiffKind.TypeMismatch,
                    expected := some (nodeToString expected),
                    actual := some (nodeToString actual),
                    message := "Type mismatch: expected " ++ kindToString expected.kind ++
                      ", got " ++ kindToString actual.kind }],
        hasChanges := true,
        summary := { missing := 0, extra := 0, mismatch := 1 } } := by
  unfold compare
  rw [compareNodes, if_pos h]
  simp [List.filter]
  exact ⟨rfl, rfl⟩

/-- C4 witness: `compare(object{a}, primitive "string")` yields exactly one
diff, at the empty path, of kind `TypeMismatch`; in particular no diff
references the property `a`. -/
theorem C4_kind_mismatch_halts_witness :
    objWithA.kind ≠ (prim "string").kind ∧
    compare objWithA (prim "string") [] =
      { diffs := [{ path := [], kind := DiffKind.TypeMismatch,
                    expected := some "object",
                    actual := some "string",
                    message := "Type mismatch: expected object, got primitive" }],
        hasChanges := true,
        summary := { missing := 0, extra := 0, mismatch := 1 } } :=
  ⟨by decide, C4_kind_mismatch_halts objWithA (prim "string") [] (by decide)⟩

/-- C7: for every `TypeNode` tree with no duplicate property keys among any
object node's children, comparing the tree with itself yields no changes: the
diff sequence is empty and `hasChanges` is `false`. -/
theorem C7_reflexivity (X : TypeNode) (h : noDupProps X = true) :
    compare X X [] =
      { diffs := [], hasChanges := false,
        summary := { missing := 0, extra := 0, mismatch := 0 } } := by
  unfold compare
  rw [compareNodes_self X []]
  rfl

/-- C7 witness: reflexivity at the concrete tree `object {id, name}`. -/
theorem C7_reflexivity_witness :
    noDupProps objIdName = true ∧
    compare objIdName objIdName [] =
      { diffs := [], hasChanges := false,
        summary := { missing := 0, extra := 0, mismatch := 0 } } :=
  ⟨by decide, C7_reflexivity objIdName (by decide)⟩

/-- C9: `formatPath` joins path segments with `"."` and renders the empty path
as the literal string `"root"` (the definition is modelled from the spec, the
method being absent from the differ under src). -/
theorem C9_formatPath :
    formatPath [] = "root" ∧
    formatPath ["user", "profile", "email"] = "user.profile.email" := by
  constructor <;> rfl

/-- C10: for equal-kind inputs whose common kind is one of function,
conditional, template, indexed, mapped, class, interface or enum, the switch in
`compareNodes` has no arm, so `compare` returns no diffs regardless of names,
values or children. -/
theorem C10_unhandled_kinds_no_diffs (e a : TypeNode) (p : List Seg)
    (hk : e.kind = a.kind)
    (h : e.kind = .function ∨ e.kind = .conditional ∨ e.kind = .template ∨
      e.kind = .indexed ∨ e.kind = .mapped ∨ e.kind = .classK ∨
      e.kind = .interfaceK ∨ e.kind = .enumK) :
    compare e a p =
      { diffs := [], hasChanges := false,
        summary := { missing := 0, extra := 0, mismatch := 0 } } := by
  unfold compare
  rw [compareNodes, if_neg (by simp [hk])]
  rcases h with h | h | h | h | h | h | h | h <;> rw [h] <;> rfl

/-- C10 witness: two `function` nodes with entirely different children and
names compare as unchanged. -/
theorem C10_unhandled_kinds_no_diffs_witness :
    (TypeNode.mk .function (some "function") none [prim "id", prim "return"] false false).kind
      = (TypeNode.mk .function (some "g") none [] false false).kind ∧
    compare (.mk .function (some "function") none [prim "id", prim "return"] false false)
        (.mk .function (some "g") none [] false false) [] =
      { diffs := [], hasChanges := false,
        summary := { missing := 0, extra := 0, mismatch := 0 } } :=
  ⟨by decide,
    C10_unhandled_kinds_no_diffs
      (.mk .function (some "function") none [prim "id", prim "return"] false false)
      (.mk .function (some "g") none [] false false) [] (by decide) (Or.inl (by decide))⟩

/-- C8 counterexample: two root literals with different values produce a diff
whose path is empty although it is not a kind mismatch (both kinds are
`literal` and the diff kind is `ValueMismatch`), refuting "path empty only for
a root-level kind mismatch". -/
theorem C8_counterexample :
    (litS "a").kind = (litS "b").kind ∧
    compare (litS "a") (litS "b") [] =
      { diffs := [{ path := [], kind := DiffKind.ValueMismatch, expected := some "a",
                    actual := some "b",
                    message := "Literal value mismatch: expected a, got b" }],
        hasChanges := true,
        summary := { missing := 0, extra := 0, mismatch := 1 } } :=
  ⟨rfl, by rw [compare_eq_fx 1000000 (litS "a") (litS "b") [] (by decide)]; decide⟩

/-- C8 (amended): every diff extends the path of the call that emitted it, so
an empty-path diff can only be emitted for the two root nodes themselves: a
root kind mismatch, a root primitive/unknown or generic name mismatch, a root
union/intersection arity mismatch (all `TypeMismatch`), or a root literal value
mismatch (`ValueMismatch`); diffs emitted below the root always carry a
non-empty path. -/
theorem C8_empty_path_root_only :
    (∀ (e a : TypeNode) (p : List Seg) (d : TypeDiff),
        d ∈ (compare e a p).diffs → ∃ s, d.path = p ++ s) ∧
    (∀ (e a : TypeNode) (d : TypeDiff),
        d ∈ (compare e a []).diffs → d.path = [] →
          d.kind = DiffKind.TypeMismatch ∨ d.kind = DiffKind.ValueMismatch) := by
  have hdiffs : ∀ (e a : TypeNode) (p : List Seg), (compare e a p).diffs = compareNodes e a p :=
    fun e a p => rfl
  constructor
  · intro e a p d hd
    rw [hdiffs] at hd
    exact compareNodes_path e a p d hd
  · intro e a d hd hpath
    rw [hdiffs] at hd
    have hf : ∀ x ∈ e.children, ∀ y q (d : TypeDiff), d ∈ compareNodes x y q →
        ∃ s, d.path = q ++ s := fun x hx y q d hd => compareNodes_path x y q d hd
    rw [compareNodes] at hd
    split at hd
    · simp only [List.mem_singleton] at hd
      subst hd
      exact Or.inl rfl
    · split at hd
      all_goals
        first
          | (rw [compareObjects_eq] at hd
             rcases objPartsWith_path e a [] hf d hd with ⟨nm, s, hs⟩
             rw [hpath] at hs
             simp at hs)
          | (rcases List.mem_append.mp hd with hd | hd <;>
              first
                | (split at hd <;>
                    first
                      | (simp only [List.mem_singleton] at hd
                         subst hd
                         exact Or.inl rfl)
                      | simp at hd)
                | (rw [compareArrays_eq] at hd
                   rcases arrayPartsWith_path e a [] hf d hd with ⟨nm, s, hs⟩
                   rw [hpath] at hs
                   simp at hs))
          | (rw [compareArrays_eq] at hd
             rcases arrayPartsWith_path e a [] hf d hd with ⟨nm, s, hs⟩
             rw [hpath] at hs
             simp at hs)
          | (simp only [compareComposites] at hd
             split at hd
             · simp only [List.mem_singleton] at hd
               subst hd
               exact Or.inl rfl
             · simp at hd)
          | (split at hd <;>
              first
                | (simp only [List.mem_singleton] at hd
                   subst hd
                   first
                     | exact Or.inl rfl
                     | exact Or.inr rfl)
                | simp at hd)
          | simp at hd

/-- C8 witness: the amended invariant applied at the concrete pair
`(object{a}, primitive "string")`, whose only diff has an empty path. -/
theorem C8_empty_path_root_only_witness :
    ({ path := [], kind := DiffKind.TypeMismatch, expected := some "object",
       actual := some "string",
       message := "Type mismatch: expected object, got primitive" } : TypeDiff).kind
        = DiffKind.TypeMismatch ∨
    ({ path := [], kind := DiffKind.TypeMismatch, expected := some "object",
       actual := some "string",
       message := "Type mismatch: expected object, got primitive" } : TypeDiff).kind
        = DiffKind.ValueMismatch :=
  C8_empty_path_root_only.2 objWithA (prim "string") _
    (by rw [show (compare objWithA (prim "string") []).diffs
          = (compareFx 1000000 objWithA (prim "string") []).diffs from
          congrArg DiffResult.diffs (compare_eq_fx 1000000 objWithA (prim "string") [] (by decide))]
        decide)
    rfl

/-- The `typeNode` a top-level `serialize` returns is `serializeType` run at
depth 0 with `options?.maxDepth ?? 10` on a fresh cache. -/
theorem serialize_typeNode (env : TypeEnv) (t : TypeId) (opts : Option SerializationOptions)
    (c : TypeCache) :
    (serialize env t opts c).1.typeNode =
      (serializeType env t 0 ((opts.bind (fun o => o.maxDepth)).getD 10)
        { seen := [], depth := [] }).1 := rfl

/-- C2 counterexample: on the self-referential array type, the claimed
first-seen rule would return `[Circular]` at depth 3 (the variant
`serializeTypeFirstSeen`, which implements the claim's words, does exactly
that), but the code never does: its depth map is overwritten on every visit, so
the gap never exceeds 2; the final cache maps the handle to 5, the depth of the
last visit, not 0, the depth at which it was first seen. -/
theorem C2_counterexample :
    containsName "[Circular]" (serializeType envArr 0 0 5 emptyCache).1 = false ∧
    containsName "[Circular]" (serializeTypeFirstSeen envArr 0 0 5 emptyCache).1 = true ∧
    (serializeType envArr 0 0 5 emptyCache).2.depthGet 0 = some 5 := by
  refine ⟨?_, ?_, ?_⟩
  · rw [← serializeTypeFx_eq 10 envArr 0 0 5 emptyCache (by omega)]
    decide
  · rw [← serializeTypeFirstSeenFx_eq 10 envArr 0 0 5 emptyCache (by omega)]
    decide
  · rw [← serializeTypeFx_eq 10 envArr 0 0 5 emptyCache (by omega)]
    decide

/-- C2 (amended): the per-call visited cache maps each handle to the depth of
its most recent visit (lines 83-84 overwrite the entry every time), not its
first-seen depth; when a handle is re-encountered and the current depth exceeds
that recorded depth by more than 2, `serializeType` returns `[Circular]`
without recursing and without touching the cache; the cache is rebuilt fresh at
the start of every top-level `serialize` call, whose result is therefore
independent of any previously accumulated cache state. -/
theorem C2_last_seen_circular_check :
    (∀ (env : TypeEnv) (t : TypeId) (depth maxDepth : Nat) (cache : TypeCache),
        ¬ depth > maxDepth →
        cache.seenHas t = true →
        depth - (cache.depthGet t).getD 0 > 2 →
        serializeType env t depth maxDepth cache =
          (.mk .unknown (some "[Circular]") none [] false false, cache)) ∧
    (∀ (env : TypeEnv) (t : TypeId) (opts : Option SerializationOptions)
        (c c' : TypeCache), serialize env t opts c = serialize env t opts c') ∧
    (serializeType envArr 0 0 5 emptyCache).2.depthGet 0 = some 5 := by
  refine ⟨?_, ?_, ?_⟩
  · intro env t d m c h1 h2 h3
    rw [serializeType, if_neg h1, if_pos ⟨h2, h3⟩]
  · intro env t opts c c'
    rfl
  · rw [← serializeTypeFx_eq 10 envArr 0 0 5 emptyCache (by omega)]
    decide

/-- C2 witness: the circular return fires at a concrete cache recording depth 0
for handle 0 when the handle is revisited at depth 3. -/
theorem C2_last_seen_circular_check_witness :
    serializeType envArr 0 3 10 { seen := [0], depth := [(0, 0)] } =
      (.mk .unknown (some "[Circular]") none [] false false,
       { seen := [0], depth := [(0, 0)] }) :=
  C2_last_seen_circular_check.1 envArr 0 3 10 { seen := [0], depth := [(0, 0)] }
    (by decide) (by decide) (by decide)

/-- C3 counterexample: serializing the claim's own example
`Node = {value: string; next?: Node}` with `maxDepth = 5` does complete with an
object root, but the output contains no node named `"..."` or `"[Circular]"`:
the depth-cap placeholder becomes the value of the `next` property, and the
property spread `{...serialized, name: prop.name}` overwrites its marker name
with `"next"`. -/
theorem C3_counterexample :
    (serialize envLL 0 (some { maxDepth := some 5 }) emptyCache).1.typeNode.kind
        = TypeKind.object ∧
    containsName "..."
      (serialize envLL 0 (some { maxDepth := some 5 }) emptyCache).1.typeNode = false ∧
    containsName "[Circular]"
      (serialize envLL 0 (some { maxDepth := some 5 }) emptyCache).1.typeNode = false := by
  have h5 : (((some ({ maxDepth := some 5 } : SerializationOptions))).bind
        (fun o => o.maxDepth)).getD 10 = 5 := rfl
  refine ⟨?_, ?_, ?_⟩ <;>
    · rw [serialize_typeNode, h5]
      rw [← serializeTypeFx_eq 10 envLL 0 0 5 { seen := [], depth := [] } (by omega)]
      decide

/-- C3 (amended): `serializeType` is total: whenever `depth` exceeds
`maxDepth` it returns `{kind: unknown, name: "..."}` immediately, before any
inspection, and the cache untouched; consequently serializing
`Node = {value: string; next?: Node}` with `maxDepth = 5` completes and returns
`kind=object` at the root with a depth-cap placeholder of kind `unknown` among
its descendants — but the placeholder's `"..."` name is overwritten with the
property name by the `{...serialized, name, optional, readonly}` spread, so no
node named `"..."` or `"[Circular]"` survives in this example. -/
theorem C3_depth_guard_terminates :
    (∀ (env : TypeEnv) (t : TypeId) (depth maxDepth : Nat) (cache : TypeCache),
        depth > maxDepth →
        serializeType env t depth maxDepth cache =
          (.mk .unknown (some "...") none [] false false, cache)) ∧
    (serialize envLL 0 (some { maxDepth := some 5 }) emptyCache).1.typeNode.kind
        = TypeKind.object ∧
    containsKind .unknown
      (serialize envLL 0 (some { maxDepth := some 5 }) emptyCache).1.typeNode = true := by
  refine ⟨?_, ?_, ?_⟩
  · intro env t d m c h
    rw [serializeType, if_pos h]
  all_goals
    · have h5 : (((some ({ maxDepth := some 5 } : SerializationOptions))).bind
            (fun o => o.maxDepth)).getD 10 = 5 := rfl
      rw [serialize_typeNode, h5]
      rw [← serializeTypeFx_eq 10 envLL 0 0 5 { seen := [], depth := [] } (by omega)]
      decide

/-- C3 witness: the depth guard at concrete arguments 6 > 5. -/
theorem C3_depth_guard_terminates_witness :
    serializeType envLL 0 6 5 emptyCache =
      (.mk .unknown (some "...") none [] false false, emptyCache) :=
  C3_depth_guard_terminates.1 envLL 0 6 5 emptyCache (by decide)

/-- C5: on two object nodes with distinct property keys, the comparison is the
name-keyed description of the claim: each expected property missing from actual
yields a `Missing` diff at `path + [name]` exactly when it is not optional
(optional absence is silent), each matched property recurses at
`path + [name]`, and each actual-only property yields an `Extra` diff at
`path + [name]`; all expected-side outcomes come first, in expected's property
order, followed by the actual-only extras. -/
theorem C5_object_props_matched_by_name (e a : TypeNode) (p : List Seg)
    (hek : e.kind = TypeKind.object) (hak : a.kind = TypeKind.object)
    (he : nodupKeys (e.children.map TypeNode.name) = true)
    (ha : nodupKeys (a.children.map TypeNode.name) = true) :
    compareNodes e a p =
      (e.children.map (fun c =>
        match findByName a.children c.name with
        | none =>
            if c.optionalFlag then []
            else
              [{ path := p ++ [c.name], kind := DiffKind.Missing,
                 expected := some (nodeToString c),
                 message := "Missing property: " ++ optName c.name }]
        | some c2 => compareNodes c c2 (p ++ [c.name]))).flatten
      ++ (a.children.filter (fun c => !(findByName e.children c.name).isSome)).map
          (fun c =>
            { path := p ++ [c.name], kind := DiffKind.Extra,
              actual := some (nodeToString c),
              message := "Extra property: " ++ optName c.name }) := by
  have hmatch : compareNodes e a p = compareObjects e a p := by
    rw [compareNodes, if_neg (by simp [hek, hak]), hek]
  rw [hmatch, compareObjects_eq, objPartsWith,
    buildPropMap_of_nodup he, buildPropMap_of_nodup ha]
  congr 1
  · rw [List.map_map]
    apply congrArg List.flatten
    apply List.map_congr_left
    intro c _
    simp only [Function.comp]
    rw [mapGet_pairs]
  · calc ((a.children.map (fun c => (c.name, c))).map (fun ap =>
          if mapHas (e.children.map (fun c => (c.name, c))) ap.1 then ([] : List TypeDiff)
          else
            [{ path := p ++ [ap.1], kind := DiffKind.Extra,
               actual := some (nodeToString ap.2),
               message := "Extra property: " ++ optName ap.1 }])).flatten
        = (a.children.map (fun c =>
            if (findByName e.children c.name).isSome then ([] : List TypeDiff)
            else
              [{ path := p ++ [c.name], kind := DiffKind.Extra,
                 actual := some (nodeToString c),
                 message := "Extra property: " ++ optName c.name }])).flatten := by
          rw [List.map_map]
          apply congrArg List.flatten
          apply List.map_congr_left
          intro c _
          simp only [Function.comp]
          rw [mapHas_pairs]
      _ = _ := flatten_map_ite _ _ _

/-- C5 witness: expected `object {id, email?}` against actual `object {id}`:
`id` recurses, the optional `email` produces nothing, and there is no extra. -/
theorem C5_object_props_matched_by_name_witness :
    compareNodes objIdEmailOpt objId [] =
      (objIdEmailOpt.children.map (fun c =>
        match findByName objId.children c.name with
        | none =>
            if c.optionalFlag then []
            else
              [{ path := [] ++ [c.name], kind := DiffKind.Missing,
                 expected := some (nodeToString c),
                 message := "Missing property: " ++ optName c.name }]
        | some c2 => compareNodes c c2 ([] ++ [c.name]))).flatten
      ++ (objId.children.filter
            (fun c => !(findByName objIdEmailOpt.children c.name).isSome)).map
          (fun c =>
            { path := [] ++ [c.name], kind := DiffKind.Extra,
              actual := some (nodeToString c),
              message := "Extra property: " ++ optName c.name }) :=
  C5_object_props_matched_by_name objIdEmailOpt objId [] rfl rfl (by decide) (by decide)

/-- C6 counterexample: a handle with one call signature that also answers
`isUnion` (as TypeScript produces for unions of callables) serializes as
`kind=union`, not `kind=function`: the union check precedes the callable check
in the classification chain. -/
theorem C6_counterexample :
    (envUF 0).callSignatures.length > 0 ∧
    (serialize envUF 0 none emptyCache).1.typeNode.kind = TypeKind.union := by
  constructor
  · decide
  · rw [serialize_typeNode]
    have h10 : (((none : Option SerializationOptions)).bind
        (fun o => o.maxDepth)).getD 10 = 10 := rfl
    rw [h10]
    rw [← serializeTypeFx_eq 15 envUF 0 0 10 { seen := [], depth := [] } (by omega)]
    decide

/-- C6 (amended): for a type handle with at least one call signature that none
of the earlier classifier checks (union, intersection, literal, primitive
flags, array, tuple) claims first, a top-level `serialize` produces a
`kind=function` node built from only the first call signature: its children are
the serialized parameter nodes — each tagged with the parameter's name and
optional flag — followed by exactly one synthetic child named `"return"`
holding the serialized return type. -/
theorem C6_first_signature_only (env : TypeEnv) (t : TypeId)
    (opts : Option SerializationOptions) (staleCache : TypeCache)
    {signature : SigInfo} {rest : List SigInfo}
    (hsig : (env t).callSignatures = signature :: rest)
    (hU : (env t).isUnion = false) (hI : (env t).isIntersection = false)
    (hSL : (env t).isStringLiteral = false) (hNL : (env t).isNumberLiteral = false)
    (hBL : (env t).flagBooleanLiteral = false)
    (hS : (env t).flagString = false) (hN : (env t).flagNumber = false)
    (hB : (env t).flagBoolean = false) (hNu : (env t).flagNull = false)
    (hUd : (env t).flagUndefined = false) (hV : (env t).flagVoid = false)
    (hA : (env t).flagAny = false) (hUk : (env t).flagUnknown = false)
    (hNv : (env t).flagNever = false)
    (hArr : (env t).isArrayType = false) (hTup : (env t).isTupleType = false) :
    ∃ (paramNodes : List TypeNode) (retNode : TypeNode) (c1 c2 : TypeCache),
      statMap (fun (param : ParamInfo) cc =>
          let r := serializeType env param.ty (0 + 1)
            ((opts.bind (fun o => o.maxDepth)).getD 10) cc
          (r.1.withParamMeta param.name param.optional, r.2)) signature.params
          (TypeCache.add { seen := [], depth := [] } t 0) = (paramNodes, c1) ∧
      serializeType env signature.ret (0 + 1)
          ((opts.bind (fun o => o.maxDepth)).getD 10) c1 = (retNode, c2) ∧
      (serialize env t opts staleCache).1.typeNode =
        .mk .function (some "function") none
          (paramNodes ++ [retNode.withName "return"]) false false ∧
      List.Forall₂ (fun (param : ParamInfo) (node : TypeNode) =>
        node.name = some param.name ∧ node.optionalFlag = param.optional)
        signature.params paramNodes := by
  have hST : serializeType env t 0 ((opts.bind (fun o => o.maxDepth)).getD 10)
      { seen := [], depth := [] } =
      serializeFunctionType env t 0 ((opts.bind (fun o => o.maxDepth)).getD 10)
        (TypeCache.add { seen := [], depth := [] } t 0) :=
    serializeType_function env t 0 _ _ (by omega)
      (by simp [TypeCache.seenHas])
      hU hI hSL hNL hBL hS hN hB hNu hUd hV hA hUk hNv hArr hTup
      (by rw [hsig]; simp)
  rcases serializeFunctionType_shape env t 0 ((opts.bind (fun o => o.maxDepth)).getD 10)
      (TypeCache.add { seen := [], depth := [] } t 0) hsig with
    ⟨pn, c1, rn, c2, hp, hr, heq, hforall⟩
  refine ⟨pn, rn, c1, c2, hp, hr, ?_, hforall⟩
  rw [serialize_typeNode, hST, heq]

/-- C6 witness: the amended statement at the concrete callable environment
`(id: string, name?: string) => string`. -/
theorem C6_first_signature_only_witness :
    ∃ (paramNodes : List TypeNode) (retNode : TypeNode) (c1 c2 : TypeCache),
      statMap (fun (param : ParamInfo) cc =>
          let r := serializeType envF param.ty (0 + 1)
            ((((none : Option SerializationOptions)).bind
              (fun o => o.maxDepth)).getD 10) cc
          (r.1.withParamMeta param.name param.optional, r.2))
          [{ name := "id", «optional» := false, ty := 1 },
           { name := "name", «optional» := true, ty := 1 }]
          (TypeCache.add { seen := [], depth := [] } 0 0) = (paramNodes, c1) ∧
      serializeType envF 1 (0 + 1)
          ((((none : Option SerializationOptions)).bind
            (fun o => o.maxDepth)).getD 10) c1 = (retNode, c2) ∧
      (serialize envF 0 none emptyCache).1.typeNode =
        .mk .function (some "function") none
          (paramNodes ++ [retNode.withName "return"]) false false ∧
      List.Forall₂ (fun (param : ParamInfo) (node : TypeNode) =>
        node.name = some param.name ∧ node.optionalFlag = param.optional)
        [{ name := "id", «optional» := false, ty := 1 },
         { name := "name", «optional» := true, ty := 1 }]
        paramNodes :=
  C6_first_signature_only envF 0 none emptyCache rfl rfl rfl rfl rfl rfl rfl rfl rfl
    rfl rfl rfl rfl rfl rfl rfl rfl

end TypeLens
